import Mathlib

/-!
Verification of the quiz-bot authoring/session/delivery core
(`simple_bot.py`): a shallow embedding of its data model and handlers,
with theorems settling the specification's claims.

Machine integers are modelled as `Int` (Python integers are unbounded),
stores as Lean lists (the JSON files hold a list of question records and
an insertion-ordered map of user records), and each handler as a pure
function from its inputs and the relevant state to the new state.
-/

namespace QuizBot

/-! ## Python string primitives used by the handlers -/

/-- ASCII whitespace as recognised by Python's `str.strip` / regex `\s`
(the unicode extras are irrelevant to the inputs considered here). -/
def isPySpace (c : Char) : Bool :=
  c = ' ' || c = '\t' || c = '\n' || c = '\r' || c = '\x0b' || c = '\x0c'

/-- Python `str.strip()`. -/
def pyStrip (s : String) : String :=
  String.mk (((s.data.dropWhile isPySpace).reverse.dropWhile isPySpace).reverse)

/-- Split a character list at every occurrence of `sep`, keeping empty
pieces — Python `str.split(sep)` for a one-character separator. -/
def splitChars (sep : Char) : List Char → List (List Char)
  | [] => [[]]
  | c :: rest =>
    if c = sep then [] :: splitChars sep rest
    else
      match splitChars sep rest with
      | h :: t => (c :: h) :: t
      | [] => [[c]]

/-- Python `s.split(sep)` for a one-character separator. -/
def pySplit (sep : Char) (s : String) : List String :=
  (splitChars sep s.data).map String.mk

/-- Python `str.lower()` (ASCII, which is all the inputs here use). -/
def pyLower (s : String) : String :=
  String.mk (s.data.map Char.toLower)

/-- Is `pre` a prefix of `l`? -/
def listPre : List Char → List Char → Bool
  | [], _ => true
  | _ :: _, [] => false
  | a :: as, b :: bs => a = b && listPre as bs

/-- Does `needle` occur contiguously inside `haystack`?  Python's `in`. -/
def listSub (needle : List Char) : List Char → Bool
  | [] => needle.isEmpty
  | b :: bs => listPre needle (b :: bs) || listSub needle bs

/-- Python `sub in s` for strings. -/
def strContains (s sub : String) : Bool :=
  listSub sub.data s.data

/-- Decimal digits to a number, `none` when empty or non-digits occur. -/
def digitsToNat (l : List Char) : Option Nat :=
  if l ≠ [] && l.all Char.isDigit then
    some (l.foldl (fun a c => a * 10 + (c.toNat - 48)) 0)
  else none

/-- Python `int(s)` on an already-stripped string: optional sign then
decimal digits (`ValueError` is `none`; underscore grouping elided). -/
def pyInt (s : String) : Option Int :=
  match s.data with
  | '-' :: rest => (digitsToNat rest).map (fun n => -(n : Int))
  | '+' :: rest => (digitsToNat rest).map (fun n => (n : Int))
  | l => (digitsToNat l).map (fun n => (n : Int))

/-! ## Data model -/

/-- A stored question record
`{id, question, options, answer, category}`. -/
structure Question where
  id : Int
  question : String
  options : List String
  answer : Int
  category : String
deriving Repr, DecidableEq

/-- A per-user stats record `{name, correct, total}`. -/
structure UserStat where
  name : String
  correct : Int
  total : Int
deriving Repr, DecidableEq

/-- The questions collection: a JSON array, insertion order kept. -/
abbrev Store := List Question

/-- The users collection: a JSON object, i.e. an insertion-ordered map
from user id (string) to stats record. -/
abbrev Users := List (String × UserStat)

/-- The record invariant `0 ≤ answer < len(options)`. -/
def answerInRange (q : Question) : Prop :=
  0 ≤ q.answer ∧ q.answer < (q.options.length : Int)

instance (q : Question) : Decidable (answerInRange q) := by
  unfold answerInRange; infer_instance

/-- Every stored record satisfies the answer-range invariant. -/
def storeInv (store : Store) : Prop :=
  ∀ q ∈ store, answerInRange q

instance (store : Store) : Decidable (storeInv store) := by
  unfold storeInv; exact List.decidableBAll _ store

/-! ## QuestionStore operations -/

/-- `get_question_by_id`: first record whose `id` matches, else `None`. -/
def get_question_by_id (store : Store) (qid : Int) : Option Question :=
  store.find? (fun q => q.id = qid)

/-- `delete_question_by_id`: keep the records whose `id` differs; persist
and report `True` exactly when the collection shrank. -/
def delete_question_by_id (store : Store) (qid : Int) : Store × Bool :=
  let updated := store.filter (fun q => q.id ≠ qid)
  if updated.length < store.length then (updated, true) else (store, false)

/-! ## UserStatsStore -/

/-- Lookup in the users map (first binding wins, as in a dict). -/
def lookupUser : Users → String → Option UserStat
  | [], _ => none
  | (k, v) :: rest, uid => if k = uid then some v else lookupUser rest uid

/-- In-place mutation of the binding for `uid`, as `user_data[uid][...] += 1`
mutates the dict entry. -/
def updateEntry : Users → String → (UserStat → UserStat) → Users
  | [], _, _ => []
  | (k, v) :: rest, uid, f =>
    if k = uid then (k, f v) :: rest else (k, v) :: updateEntry rest uid f

/-- `update_user_stats(user_id, user_name, is_correct)`: create a zeroed
record on first sight, then `total += 1` and `correct += is_correct`. -/
def update_user_stats (users : Users) (uid name : String)
    (is_correct : Bool) : Users :=
  let users' :=
    match lookupUser users uid with
    | some _ => users
    | none => users ++ [(uid, ⟨name, 0, 0⟩)]
  updateEntry users' uid
    (fun s => { s with
      total := s.total + 1,
      correct := s.correct + (if is_correct then 1 else 0) })

/-- The data a poll answer update carries: the answering user and the
selected option ids (empty on retraction). -/
structure PollAnswer where
  user_id : Int
  user_name : String
  option_ids : List Int
deriving Repr, DecidableEq

/-- `handle_poll_answer`: grade the first selected option against the
context's `quiz_correct_answer` entry (absent ⇒ `None`) and update the
user's stats; returns the new users map and the `is_correct` verdict. -/
def handle_poll_answer (quiz_correct_answer : Option Int) (users : Users)
    (ans : PollAnswer) : Users × Bool :=
  let selected : Option Int := ans.option_ids.head?
  let is_correct : Bool := selected == quiz_correct_answer
  (update_user_stats users (toString ans.user_id) ans.user_name is_correct,
   is_correct)

/-! ## DeliveryScheduler: marathon mode

`play` (with an id argument) sends the first matching question at once,
stores the rest, and awaits `schedule_next_question`, which sleeps 15
seconds, sends the head of the remaining list, and recurses while any
remain.  We record the delivery trace as `(time, question)` pairs where
time is seconds elapsed since the first delivery. -/

/-- `schedule_next_question`: after a 15-second sleep from `now`, deliver
the head of the remaining list and recurse. -/
def schedule_next_question (now : Nat) : List Question → List (Nat × Question)
  | [] => []
  | q :: rest => (now + 15, q) :: schedule_next_question (now + 15) rest

/-- The marathon path of `play`: the first question goes out immediately
(time 0); the remainder is handed to `schedule_next_question`. An empty
match list sends nothing. -/
def play_marathon (qs : List Question) : List (Nat × Question) :=
  match qs with
  | [] => []
  | q :: rest => (0, q) :: schedule_next_question 0 rest

/-! ## QuizExtractor: `parse_telegram_quiz_url`

The network-dependent observations (the Pyrogram message fetch, the main
page fetch, and the embedded-view fetch) are inputs; each holds exactly
the raw data the code inspects, with `none` standing for a fetch or
parse that raised.  The decision logic over those observations is
translated from the source. -/

/-- An extracted draft `{question, options, answer}`. -/
structure Draft where
  question : String
  options : List String
  answer : Int
deriving Repr, DecidableEq

/-- A message obtained through Pyrogram: a poll, a text, or something
else (neither attribute set). -/
inductive PyroMessage where
  | pollMsg (question : String) (options : List String)
  | textMsg (text : String)
  | otherMsg
deriving Repr, DecidableEq

/-- The embedded-view page: the widget message text (if the selector
hits), the `og:title` content attribute (if the meta tag exists), and
the stripped text of each `p` under the message text. -/
structure EmbedPage where
  messageText : Option String
  ogTitle : Option String
  paragraphs : List String
deriving Repr, DecidableEq

/-- The main fetched page: the poll-question regex capture (if the
pattern hits), every poll-option capture, and the `og:title` /
`og:description` content attributes. -/
structure MainPage where
  pollQuestion : Option String
  pollOptions : List String
  ogTitle : Option String
  ogDescription : Option String
deriving Repr, DecidableEq

/-- The environment a call to the extractor runs against. `none` on a
fetch field models the corresponding request/processing raising. -/
structure FetchEnv where
  hasCreds : Bool
  pyroFetch : Option PyroMessage
  mainFetch : Option MainPage
  embedFetch : Option EmbedPage
deriving Repr, DecidableEq

/-- After `t.me/` the pattern needs one or more non-`/` characters, the
ensuing `/`, then a digit (regex `([^/]+)/(\d+)` continued). -/
def slashDigitAfter : List Char → Bool
  | [] => false
  | c :: rest =>
    if c = '/' then
      match rest with
      | d :: _ => d.isDigit
      | [] => false
    else slashDigitAfter rest

/-- Does `t\.me/([^/]+)/(\d+)` match starting at this position? -/
def chanHere : List Char → Bool
  | 't' :: '.' :: 'm' :: 'e' :: '/' :: tail =>
    match tail with
    | [] => false
    | c :: rest => if c = '/' then false else slashDigitAfter rest
  | _ => false

/-- `re.search` of the channel pattern anywhere in the url. -/
def hasChanPattern : List Char → Bool
  | [] => false
  | c :: rest => chanHere (c :: rest) || hasChanPattern rest

/-- `re.sub(r'^[a-z][\.\)]\s*', '', line)`. -/
def stripLowerMarker (l : List Char) : List Char :=
  match l with
  | a :: b :: rest =>
    if ('a' ≤ a && a ≤ 'z') && (b = '.' || b = ')') then
      rest.dropWhile isPySpace
    else l
  | _ => l

/-- `re.sub(r'^\d+[\.\)]\s*', '', line)` (only the maximal digit run can
be followed by the bracket, so no backtracking cases arise). -/
def stripDigitMarker (l : List Char) : List Char :=
  let ds := l.takeWhile Char.isDigit
  if ds.isEmpty then l
  else
    match l.drop ds.length with
    | b :: rest =>
      if b = '.' || b = ')' then rest.dropWhile isPySpace else l
    | [] => l

/-- `re.sub(r'^[A-Za-z0-9][\.\)]\s*', '', line)`. -/
def stripAlnumMarker (l : List Char) : List Char :=
  match l with
  | a :: b :: rest =>
    if (a.isAlpha || a.isDigit) && (b = '.' || b = ')') then
      rest.dropWhile isPySpace
    else l
  | _ => l

/-- The Pyrogram text-message branch: strip, split into lines, need at
least three; the first line is the question, the rest are de-markered
and kept when non-empty; accept on at least two options. -/
def pyroTextExtract (text : String) : Option Draft :=
  let lines := pySplit '\n' (pyStrip text)
  if lines.length ≥ 3 then
    let question := lines.headD ""
    let options := (lines.tail.map (fun line =>
        String.mk (stripDigitMarker (stripLowerMarker (pyStrip line).data)))).filter
      (fun l => l ≠ "")
    if options.length ≥ 2 then some ⟨question, options, 0⟩ else none
  else none

/-- Strategy: the Pyrogram API lookup (runs only with credentials and a
channel-pattern match; a poll's question/options are returned as-is). -/
def strat_pyro (url : String) (env : FetchEnv) : Option Draft :=
  if env.hasCreds && hasChanPattern url.data then
    match env.pyroFetch with
    | some (.pollMsg question options) => some ⟨question, options, 0⟩
    | some (.textMsg text) => pyroTextExtract text
    | some .otherMsg => none
    | none => none
  else none

/-- Strategy: the structured poll markup on the main page (question
capture present, options list truthy and of size at least two). -/
def strat_pollmarkup (page : MainPage) : Option Draft :=
  match page.pollQuestion with
  | some q =>
    if page.pollOptions ≠ [] && page.pollOptions.length ≥ 2 then
      some ⟨pyStrip q, page.pollOptions, 0⟩
    else none
  | none => none

/-- The embedded-view message-text branch: stripped non-empty lines, at
least three, de-marker the tail lines, accept on at least two. -/
def embedTextExtract (text : String) : Option Draft :=
  let lines := ((pySplit '\n' (pyStrip text)).map pyStrip).filter (fun l => l ≠ "")
  if lines ≠ [] && lines.length ≥ 3 then
    let question := lines.headD ""
    let options := (lines.tail.map (fun line =>
        String.mk (stripAlnumMarker line.data))).filter (fun l => l ≠ "")
    if options.length ≥ 2 then some ⟨question, options, 0⟩ else none
  else none

/-- The embedded-view title branch: an `og:title` containing "quiz"
becomes the question; the page's paragraphs (at least two) become the
options. -/
def embedTitleExtract (page : EmbedPage) : Option Draft :=
  match page.ogTitle with
  | some content =>
    if strContains (pyLower content) "quiz" then
      if page.paragraphs ≠ [] && page.paragraphs.length ≥ 2 then
        some ⟨pyStrip content, page.paragraphs, 0⟩
      else none
    else none
  | none => none

/-- Strategy: the embedded view (message-text branch, then title
branch). -/
def strat_embed (page : EmbedPage) : Option Draft :=
  match page.messageText with
  | some t =>
    match embedTextExtract t with
    | some d => some d
    | none => embedTitleExtract page
  | none => embedTitleExtract page

/-- Strategy: the `og:title` / `og:description` metadata of the main
page; the description splits on commas into options. -/
def strat_meta (page : MainPage) : Option Draft :=
  match page.ogTitle, page.ogDescription with
  | some tc, some dc =>
    let title := pyStrip tc
    let description := pyStrip dc
    if title ≠ "" && description ≠ "" then
      if strContains (pyLower title) "quiz" then
        let options := ((pySplit ',' description).map pyStrip).filter (fun l => l ≠ "")
        if options.length ≥ 2 then some ⟨title, options, 0⟩ else none
      else none
    else none
  | _, _ => none

/-- The keyword gate in front of the embedded-view strategy:
`"rajsthangk" in url or "gk" in url.lower() or "quiz" in url.lower()`. -/
def urlGate (url : String) : Bool :=
  strContains url "rajsthangk" || strContains (pyLower url) "gk" ||
    strContains (pyLower url) "quiz"

/-- The embedded-view attempt as the chain runs it: keyword gate and
channel-pattern match, then the embedded fetch, then `strat_embed`. -/
def embedAttempt (url : String) (env : FetchEnv) : Option Draft :=
  if urlGate url && hasChanPattern url.data then
    match env.embedFetch with
    | some page => strat_embed page
    | none => none
  else none

/-- `parse_telegram_quiz_url`: validate the link, then try Pyrogram; on
failure fetch the main page — a raising fetch falls to the final
`return None` — and try poll markup, the gated embedded view, and the
metadata strategy in that order. -/
def parse_telegram_quiz_url (url : String) (env : FetchEnv) : Option Draft :=
  if url = "" || !strContains url "t.me" then none
  else
    match strat_pyro url env with
    | some d => some d
    | none =>
      match env.mainFetch with
      | none => none
      | some page =>
        match strat_pollmarkup page with
        | some d => some d
        | none =>
          match embedAttempt url env with
          | some d => some d
          | none => strat_meta page

/-- A draft the spec calls valid: non-empty question text and at least
two options. -/
def validDraftSpec (d : Draft) : Bool :=
  d.question ≠ "" && d.options.length ≥ 2

/-- Modelled from the spec's words (for comparison with the source):
the four strategies are attempted in priority order, each independently,
and the first one yielding a valid result (non-empty question, at least
two options) wins; if all fail the chain reports `none`. -/
def chainSpec (url : String) (env : FetchEnv) : Option Draft :=
  if url = "" || !strContains url "t.me" then none
  else
    ([strat_pyro url env,
      env.mainFetch.bind (fun p => strat_pollmarkup p),
      embedAttempt url env,
      env.mainFetch.bind (fun p => strat_meta p)].filterMap id).find?
      validDraftSpec

/-! ## SessionEngine handlers -/

/-- Conversation states of the create and edit flows (the
`ConversationHandler` integer constants), plus the end marker. -/
inductive ConvState where
  | QUESTION | OPTIONS | ANSWER
  | EDIT_SELECT | EDIT_QUESTION | EDIT_OPTIONS | EDIT_ANSWER
  | END
deriving Repr, DecidableEq

/-- The create flow's scratch data in `context.user_data`. -/
structure CreateDraft where
  quiz_question : Option String
  quiz_options : Option (List String)
deriving Repr, DecidableEq

/-- Split an options message into stripped non-empty lines, as
`[opt.strip() for opt in text.split('\n') if opt.strip()]`. -/
def parseOptionLines (text : String) : List String :=
  ((pySplit '\n' text).map pyStrip).filter (fun l => l ≠ "")

/-- `get_options`: fewer than two parsed options re-prompts and stays in
`OPTIONS` with the draft untouched; otherwise the options are stored and
the flow advances to `ANSWER`.  The question store is never written. -/
def get_options (draft : CreateDraft) (store : Store) (text : String) :
    ConvState × CreateDraft × Store :=
  let options := parseOptionLines text
  if options.length < 2 then (ConvState.OPTIONS, draft, store)
  else (ConvState.ANSWER, { draft with quiz_options := some options }, store)

/-- The in-place loop of `handle_edit_options`: the first record with
this id gets the new options, and its answer resets to 0 when the old
answer overruns them. -/
def setOptionsFirst (store : Store) (qid : Int) (newOptions : List String)
    (oldAnswer : Int) : Store :=
  match store with
  | [] => []
  | q :: rest =>
    if q.id = qid then
      { q with
        options := newOptions,
        answer := if oldAnswer ≥ (newOptions.length : Int) then 0 else q.answer } :: rest
    else q :: setOptionsFirst rest qid newOptions oldAnswer

/-- Outcome of the options-edit handler: the next conversation state, the
surviving `editing` session data, and the store after the handler. -/
structure EditOptionsOut where
  state : ConvState
  editing : Option Int
  store : Store
deriving Repr, DecidableEq

/-- `handle_edit_options`: parse the lines first — fewer than two
re-prompts in `EDIT_OPTIONS` with everything unchanged; then the editing
session and the target record are required; on success the first
matching record's options are replaced (answer reset to 0 when stale),
the store is saved and the session cleared. -/
def handle_edit_options (editing : Option Int) (store : Store)
    (text : String) : EditOptionsOut :=
  let new_options := parseOptionLines text
  if new_options.length < 2 then ⟨ConvState.EDIT_OPTIONS, editing, store⟩
  else
    match editing with
    | none => ⟨ConvState.END, none, store⟩
    | some qid =>
      match get_question_by_id store qid with
      | none => ⟨ConvState.END, editing, store⟩
      | some q =>
        ⟨ConvState.END, none, setOptionsFirst store qid new_options q.answer⟩

/-- The in-place loop of `handle_edit_answer`: the first record with this
id gets the new answer index, unvalidated. -/
def setAnswerFirst (store : Store) (qid : Int) (newAnswer : Int) : Store :=
  match store with
  | [] => []
  | q :: rest =>
    if q.id = qid then { q with answer := newAnswer } :: rest
    else q :: setAnswerFirst rest qid newAnswer

/-- Outcome of the answer-edit handler. -/
inductive EditAnswerOut where
  | invalidSelection
  | saved (store : Store)
deriving Repr, DecidableEq

/-- `handle_edit_answer`: split the `editanswer_<qid>_<idx>` payload,
parse both numbers, and persist the index on the first matching record
with no range check.  (The confirmation display that follows the save is
not modelled.) -/
def handle_edit_answer (store : Store) (payload : String) : EditAnswerOut :=
  let parts := pySplit '_' payload
  if parts.length < 3 then .invalidSelection
  else
    match pyInt (parts.getD 1 ""), pyInt (parts.getD 2 "") with
    | some qid, some new_answer => .saved (setAnswerFirst store qid new_answer)
    | _, _ => .invalidSelection

/-! ## Poll-to-question import (`handle_message`, last-bound version) -/

/-- The `poll_to_quiz` scratch record; `selected_answer` is added by the
answer-selection callback before the id step runs. -/
structure PollDraft where
  question : String
  options : List String
  selected_answer : Option Int
deriving Repr, DecidableEq

/-- The poll-import scratch state in `context.user_data`. -/
structure PollImportData where
  awaiting_poll_id : Bool
  poll_to_quiz : Option PollDraft
deriving Repr, DecidableEq

/-- What the message handler did. -/
inductive MsgOutcome where
  | pollDataMissing
  | invalidId
  | savedQuiz (sameIdCount : Nat)
  | crashKeyError
  | promptForAnswer
  | genericReply
deriving Repr, DecidableEq

/-- The effective (last-bound) `handle_message`.  In the awaiting-id
state a numeric input is appended with that id unconditionally — no
collision check — and both scratch keys are popped; a non-numeric input
re-prompts with everything kept.  Outside that state a forwarded poll
starts the import by storing the poll and asking for the correct
answer. -/
def handle_message (ud : PollImportData) (store : Store) (text : String)
    (forwardedPoll : Option (String × List String)) :
    PollImportData × Store × MsgOutcome :=
  if ud.awaiting_poll_id then
    match ud.poll_to_quiz with
    | none => (⟨false, none⟩, store, .pollDataMissing)
    | some pd =>
      match pyInt (pyStrip text) with
      | none => (ud, store, .invalidId)
      | some question_id =>
        match pd.selected_answer with
        | none => (ud, store, .crashKeyError)
        | some sel =>
          let new_question : Question :=
            ⟨question_id, pd.question, pd.options, sel, "Converted Poll"⟩
          let questions := store ++ [new_question]
          let same_id_count :=
            (questions.filter (fun q => q.id = question_id)).length
          (⟨false, none⟩, questions, .savedQuiz same_id_count)
  else
    match forwardedPoll with
    | some (q, opts) =>
      ({ ud with poll_to_quiz := some ⟨q, opts, none⟩ }, store, .promptForAnswer)
    | none => (ud, store, .genericReply)

/-! ## Shared lemmas -/

theorem filter_ne_full (f : Question → Bool) (store : Store)
    (h : (store.filter f).length = store.length) : store.filter f = store := by
  induction store with
  | nil => rfl
  | cons q rest ih =>
    by_cases hq : f q
    · simp only [List.filter_cons, hq, if_true, List.length_cons] at h ⊢
      exact List.cons_eq_cons.mpr ⟨rfl, ih (by omega)⟩
    · simp only [Bool.not_eq_true] at hq
      simp only [List.filter_cons, hq, Bool.false_eq_true, if_false,
        List.length_cons] at h
      have := List.length_filter_le f rest
      omega

theorem filter_ne_lt_iff (store : Store) (qid : Int) :
    (store.filter (fun q => q.id ≠ qid)).length < store.length ↔
      ∃ q ∈ store, q.id = qid := by
  induction store with
  | nil => simp
  | cons q rest ih =>
    rw [List.filter_cons]
    by_cases h : q.id = qid
    · have hc : (decide (q.id ≠ qid)) = false := by simp [h]
      rw [hc]
      have := List.length_filter_le (fun q => decide (q.id ≠ qid)) rest
      simp only [Bool.false_eq_true, if_false, List.length_cons]
      constructor
      · intro _; exact ⟨q, List.mem_cons_self _ _, h⟩
      · intro _; omega
    · have hc : (decide (q.id ≠ qid)) = true := by simp [h]
      rw [hc]
      simp only [if_true, List.length_cons, Nat.add_lt_add_iff_right]
      rw [ih]
      constructor
      · rintro ⟨x, hx, hxid⟩; exact ⟨x, List.mem_cons_of_mem _ hx, hxid⟩
      · rintro ⟨x, hx, hxid⟩
        rcases List.mem_cons.mp hx with rfl | hx
        · exact absurd hxid h
        · exact ⟨x, hx, hxid⟩

theorem length_filter_ne_add (store : Store) (qid : Int) :
    (store.filter (fun q => q.id ≠ qid)).length +
      (store.filter (fun q => q.id = qid)).length = store.length := by
  induction store with
  | nil => rfl
  | cons q rest ih =>
    rw [List.filter_cons, List.filter_cons]
    by_cases h : q.id = qid
    · have hc1 : (decide (q.id ≠ qid)) = false := by simp [h]
      have hc2 : (decide (q.id = qid)) = true := by simp [h]
      rw [hc1, hc2]
      simp only [Bool.false_eq_true, if_false, if_true, List.length_cons]
      omega
    · have hc1 : (decide (q.id ≠ qid)) = true := by simp [h]
      have hc2 : (decide (q.id = qid)) = false := by simp [h]
      rw [hc1, hc2]
      simp only [Bool.false_eq_true, if_false, if_true, List.length_cons]
      omega

theorem lookupUser_updateEntry_self (users : Users) (uid : String)
    (f : UserStat → UserStat) :
    lookupUser (updateEntry users uid f) uid = (lookupUser users uid).map f := by
  induction users with
  | nil => rfl
  | cons kv rest ih =>
    obtain ⟨k, v⟩ := kv
    by_cases h : k = uid <;> simp [updateEntry, lookupUser, h, ih]

theorem lookupUser_updateEntry_ne (users : Users) (uid k : String)
    (f : UserStat → UserStat) (h : k ≠ uid) :
    lookupUser (updateEntry users uid f) k = lookupUser users k := by
  induction users with
  | nil => rfl
  | cons kv rest ih =>
    obtain ⟨k', v⟩ := kv
    by_cases h' : k' = uid
    · subst h'
      simp [updateEntry, lookupUser, Ne.symm h]
    · by_cases h'' : k' = k
      · subst h''
        simp [updateEntry, lookupUser, h']
      · simp only [updateEntry, h', if_false, lookupUser, h'', ih]

theorem lookupUser_append_single_self (users : Users) (uid : String)
    (v : UserStat) (h : lookupUser users uid = none) :
    lookupUser (users ++ [(uid, v)]) uid = some v := by
  induction users with
  | nil => simp [lookupUser]
  | cons kv rest ih =>
    obtain ⟨k, w⟩ := kv
    by_cases hk : k = uid
    · simp [lookupUser, hk] at h
    · simp only [lookupUser, hk, if_false] at h ⊢
      exact ih h

theorem lookupUser_append_single_ne (users : Users) (uid k : String)
    (v : UserStat) (h : k ≠ uid) :
    lookupUser (users ++ [(uid, v)]) k = lookupUser users k := by
  induction users with
  | nil => simp [lookupUser, Ne.symm h]
  | cons kv rest ih =>
    obtain ⟨k', w⟩ := kv
    by_cases hk : k' = k <;> simp [lookupUser, hk, ih]

/-- The stats bump `update_user_stats` applies to the target record. -/
def bumpStat (s : UserStat) (is_correct : Bool) : UserStat :=
  { s with
    total := s.total + 1,
    correct := s.correct + (if is_correct then 1 else 0) }

theorem update_user_stats_lookup_some (users : Users) (uid name : String)
    (ok : Bool) (s : UserStat) (h : lookupUser users uid = some s) :
    lookupUser (update_user_stats users uid name ok) uid =
      some (bumpStat s ok) := by
  unfold update_user_stats
  rw [h]
  simp only [lookupUser_updateEntry_self, h, Option.map_some]
  rfl

theorem update_user_stats_lookup_none (users : Users) (uid name : String)
    (ok : Bool) (h : lookupUser users uid = none) :
    lookupUser (update_user_stats users uid name ok) uid =
      some ⟨name, if ok then 1 else 0, 1⟩ := by
  unfold update_user_stats
  rw [h]
  simp only [lookupUser_updateEntry_self,
    lookupUser_append_single_self users uid _ h, Option.map_some]
  simp [bumpStat]

theorem update_user_stats_lookup_frame (users : Users) (uid name k : String)
    (ok : Bool) (h : k ≠ uid) :
    lookupUser (update_user_stats users uid name ok) k = lookupUser users k := by
  unfold update_user_stats
  cases hl : lookupUser users uid with
  | some s => rw [lookupUser_updateEntry_ne _ _ _ _ h]
  | none =>
    rw [lookupUser_updateEntry_ne _ _ _ _ h,
      lookupUser_append_single_ne _ _ _ _ h]

theorem mem_updateEntry {users : Users} {uid : String}
    {f : UserStat → UserStat} {kv : String × UserStat}
    (h : kv ∈ updateEntry users uid f) :
    kv ∈ users ∨ ∃ kv0 ∈ users, kv = (kv0.1, f kv0.2) := by
  induction users with
  | nil => simp [updateEntry] at h
  | cons kv' rest ih =>
    obtain ⟨k, v⟩ := kv'
    by_cases hk : k = uid
    · subst hk
      have hm : kv ∈ (k, f v) :: rest := by simpa [updateEntry] using h
      rcases List.mem_cons.mp hm with he | hm'
      · exact Or.inr ⟨(k, v), List.mem_cons_self _ _, he⟩
      · exact Or.inl (List.mem_cons_of_mem _ hm')
    · have hm : kv ∈ (k, v) :: updateEntry rest uid f := by
        simpa [updateEntry, hk] using h
      rcases List.mem_cons.mp hm with he | hm'
      · exact Or.inl (List.mem_cons.mpr (Or.inl he))
      · rcases ih hm' with h' | ⟨kv0, hkv0, heq⟩
        · exact Or.inl (List.mem_cons_of_mem _ h')
        · exact Or.inr ⟨kv0, List.mem_cons_of_mem _ hkv0, heq⟩

/-! ## C8: delete semantics -/

/-- Claim C8: for every id and store contents, delete removes all stored
questions whose id equals the given id and returns true exactly when at
least one record was removed; afterwards `getById` yields `None`, and
the store's size decreases by exactly the number of matching records. -/
theorem delete_semantics (store : Store) (qid : Int) :
    (delete_question_by_id store qid).1 =
        store.filter (fun q => q.id ≠ qid) ∧
    ((delete_question_by_id store qid).2 = true ↔ ∃ q ∈ store, q.id = qid) ∧
    get_question_by_id (delete_question_by_id store qid).1 qid = none ∧
    (delete_question_by_id store qid).1.length +
        (store.filter (fun q => q.id = qid)).length = store.length := by
  have hfil : get_question_by_id (store.filter (fun q => q.id ≠ qid)) qid = none := by
    unfold get_question_by_id
    rw [List.find?_eq_none]
    intro x hx
    have := (List.mem_filter.mp hx).2
    simp only [decide_not, Bool.not_eq_true', decide_eq_false_iff_not] at this
    simpa using this
  by_cases h : (store.filter (fun q => q.id ≠ qid)).length < store.length
  · have hd : delete_question_by_id store qid =
        (store.filter (fun q => q.id ≠ qid), true) := by
      simp only [delete_question_by_id, if_pos h]
    rw [hd]
    refine ⟨rfl, ?_, hfil, length_filter_ne_add store qid⟩
    simp only [true_iff]
    exact (filter_ne_lt_iff store qid).mp h
  · have hlen : (store.filter (fun q => q.id ≠ qid)).length = store.length :=
      le_antisymm (List.length_filter_le _ _) (not_lt.mp h)
    have heq := filter_ne_full _ store hlen
    rw [heq] at hfil
    have hd : delete_question_by_id store qid = (store, false) := by
      simp only [delete_question_by_id, if_neg h]
    rw [hd]
    refine ⟨heq.symm, ?_, hfil, ?_⟩
    · simp only [Bool.false_eq_true, false_iff]
      intro hex
      exact h ((filter_ne_lt_iff store qid).mpr hex)
    · show store.length + (store.filter (fun q => q.id = qid)).length = store.length
      have h2 := length_filter_ne_add store qid
      omega

/-! ## C10: user-stats invariant -/

/-- Every user record keeps `0 ≤ correct ≤ total`. -/
def statsInv (users : Users) : Prop :=
  ∀ kv ∈ users, 0 ≤ kv.2.correct ∧ kv.2.correct ≤ kv.2.total

instance (users : Users) : Decidable (statsInv users) := by
  unfold statsInv; exact List.decidableBAll _ users

theorem statsInv_append_zero (users : Users) (uid name : String)
    (h : statsInv users) :
    statsInv (users ++ [(uid, ⟨name, 0, 0⟩)]) := by
  intro kv hkv
  rcases List.mem_append.mp hkv with hm | hm
  · exact h kv hm
  · simp only [List.mem_singleton] at hm
    subst hm
    exact ⟨le_refl 0, le_refl 0⟩

theorem statsInv_updateEntry_bump (users : Users) (uid : String) (ok : Bool)
    (h : statsInv users) :
    statsInv (updateEntry users uid
      (fun s => { s with
        total := s.total + 1,
        correct := s.correct + (if ok then 1 else 0) })) := by
  intro kv hkv
  rcases mem_updateEntry hkv with hm | ⟨kv0, h0, heq⟩
  · exact h kv hm
  · obtain ⟨h1, h2⟩ := h kv0 h0
    rw [heq]
    constructor <;> dsimp only <;> split <;> omega

/-- Claim C10: every user record satisfies `0 ≤ correct ≤ total` and
`update_user_stats` preserves this on every call; a new record starts
zeroed and is bumped to `(correct ≤ 1, total = 1)`, and an existing
record gains exactly 1 on total and the correctness bit on correct, so
counters never decrease. -/
theorem user_stats_invariant (users : Users) (uid name : String) (ok : Bool)
    (h : statsInv users) :
    statsInv (update_user_stats users uid name ok) ∧
    (lookupUser users uid = none →
        lookupUser (update_user_stats users uid name ok) uid =
          some ⟨name, if ok then 1 else 0, 1⟩) ∧
    (∀ s, lookupUser users uid = some s →
        lookupUser (update_user_stats users uid name ok) uid =
          some ⟨s.name, s.correct + (if ok then 1 else 0), s.total + 1⟩) := by
  refine ⟨?_, fun hn => update_user_stats_lookup_none users uid name ok hn,
    fun s hs => ?_⟩
  · unfold update_user_stats
    cases hl : lookupUser users uid with
    | some s => exact statsInv_updateEntry_bump users uid ok h
    | none =>
      exact statsInv_updateEntry_bump _ uid ok (statsInv_append_zero users uid name h)
  · rw [update_user_stats_lookup_some _ _ _ _ _ hs]
    rfl

/-- Witness for C10 at a concrete store. -/
theorem user_stats_invariant_witness :
    statsInv [("1", ⟨"a", 1, 2⟩)] ∧
    statsInv (update_user_stats [("1", ⟨"a", 1, 2⟩)] "1" "x" true) :=
  ⟨by decide, (user_stats_invariant [("1", ⟨"a", 1, 2⟩)] "1" "x" true (by decide)).1⟩

/-! ## C3: grading increments -/

/-- Claim C3: grading a poll answer that selected option `s` against a
recorded correct index `c` bumps the answering user's record by exactly
1 on total and by `1` on correct exactly when `s = c`; a missing record
is created zeroed before the bump; every other user's record is
untouched. -/
theorem grading_increments (users : Users) (c s : Int) (uid : Int)
    (name : String) :
    (∀ stat, lookupUser users (toString uid) = some stat →
        lookupUser (handle_poll_answer (some c) users ⟨uid, name, [s]⟩).1
            (toString uid) =
          some ⟨stat.name, stat.correct + (if s = c then 1 else 0),
            stat.total + 1⟩) ∧
    (lookupUser users (toString uid) = none →
        lookupUser (handle_poll_answer (some c) users ⟨uid, name, [s]⟩).1
            (toString uid) = some ⟨name, (if s = c then 1 else 0), 1⟩) ∧
    (∀ other, other ≠ toString uid →
        lookupUser (handle_poll_answer (some c) users ⟨uid, name, [s]⟩).1
            other = lookupUser users other) := by
  have h1 : (handle_poll_answer (some c) users ⟨uid, name, [s]⟩).1 =
      update_user_stats users (toString uid) name (s == c) := rfl
  rw [h1]
  refine ⟨fun stat hs => ?_, fun hn => ?_, fun other ho =>
    update_user_stats_lookup_frame _ _ _ _ _ ho⟩
  · rw [update_user_stats_lookup_some _ _ _ _ _ hs]
    by_cases hc : s = c <;> simp [bumpStat, hc]
  · rw [update_user_stats_lookup_none _ _ _ _ hn]
    by_cases hc : s = c <;> simp [hc]

/-- Witness for C3: correct index 2, user selects 2, fresh record ends
at `correct = 1, total = 1`. -/
theorem grading_increments_witness :
    lookupUser (handle_poll_answer (some 2) [] ⟨9, "n", [2]⟩).1 "9" =
      some ⟨"n", 1, 1⟩ := by
  simpa using (grading_increments [] 2 2 9 "n").2.1 (by decide)

/-! ## C4: grading with no recorded correct index -/

/-- Counterexample to C4 as stated: with no correct index recorded, the
handler does not refuse to grade — the user's stats are created and
bumped (total becomes 1), where the claim requires them untouched. -/
theorem no_active_quiz_counterexample :
    lookupUser [] "7" = none ∧
    lookupUser (handle_poll_answer none [] ⟨7, "u", [0]⟩).1 "7" =
      some ⟨"u", 0, 1⟩ :=
  ⟨rfl, by decide⟩

/-- C4 as amended: with no recorded correct index the handler still
grades, the verdict is `false` for any answer that selected an option
(Python `selected == None`), and the user's stats are updated with
`total += 1` and `correct += 0`. -/
theorem no_active_quiz_amended (users : Users) (ans : PollAnswer) (s : Int)
    (hsel : ans.option_ids.head? = some s) :
    (handle_poll_answer none users ans).2 = false ∧
    (∀ stat, lookupUser users (toString ans.user_id) = some stat →
        lookupUser (handle_poll_answer none users ans).1
            (toString ans.user_id) =
          some ⟨stat.name, stat.correct, stat.total + 1⟩) ∧
    (lookupUser users (toString ans.user_id) = none →
        lookupUser (handle_poll_answer none users ans).1
            (toString ans.user_id) = some ⟨ans.user_name, 0, 1⟩) := by
  have hb : (ans.option_ids.head? == (none : Option Int)) = false := by
    rw [hsel]; rfl
  have h2 : (handle_poll_answer none users ans).2 = false := by
    simp only [handle_poll_answer, hb]
  have h1 : (handle_poll_answer none users ans).1 =
      update_user_stats users (toString ans.user_id) ans.user_name false := by
    simp only [handle_poll_answer, hb]
  refine ⟨h2, fun stat hs => ?_, fun hn => ?_⟩
  · rw [h1, update_user_stats_lookup_some _ _ _ _ _ hs]
    simp [bumpStat]
  · rw [h1, update_user_stats_lookup_none _ _ _ _ hn]
    simp

/-- Witness for the amended C4. -/
theorem no_active_quiz_amended_witness :
    (handle_poll_answer none [] ⟨7, "u", [0]⟩).2 = false :=
  (no_active_quiz_amended [] ⟨7, "u", [0]⟩ 0 (by decide)).1

/-! ## C6: too-few options re-prompt -/

/-- Claim C6: an options message that parses to fewer than two non-empty
lines re-prompts: the create flow stays in `OPTIONS` with the draft
untouched, the edit flow stays in `EDIT_OPTIONS` with the session
untouched, and in both cases the question store is unchanged. -/
theorem too_few_options_reprompt (draft : CreateDraft) (editing : Option Int)
    (store : Store) (text : String)
    (h : (parseOptionLines text).length < 2) :
    get_options draft store text = (ConvState.OPTIONS, draft, store) ∧
    handle_edit_options editing store text =
      ⟨ConvState.EDIT_OPTIONS, editing, store⟩ := by
  constructor
  · simp only [get_options, if_pos h]
  · simp only [handle_edit_options, if_pos h]

/-- Witness for C6: a single-option message. -/
theorem too_few_options_reprompt_witness :
    get_options ⟨none, none⟩ [] "only one option" =
      (ConvState.OPTIONS, ⟨none, none⟩, []) :=
  (too_few_options_reprompt ⟨none, none⟩ none [] "only one option"
    (by decide)).1

/-! ## C9: poll-import custom id accepts collisions -/

/-- Claim C9: in the awaiting-id step of the poll import, a numeric
custom id is accepted and the question is appended with that id even
when a question with the same id already exists; the handler reports a
same-id count of at least 2 in that case. -/
theorem poll_import_custom_id (ud : PollImportData) (store : Store)
    (text : String) (pd : PollDraft) (sel n : Int)
    (hawait : ud.awaiting_poll_id = true)
    (hpd : ud.poll_to_quiz = some pd)
    (hsel : pd.selected_answer = some sel)
    (hid : pyInt (pyStrip text) = some n)
    (hcollide : ∃ q ∈ store, q.id = n) :
    (handle_message ud store text none).2.1 =
      store ++ [⟨n, pd.question, pd.options, sel, "Converted Poll"⟩] ∧
    (handle_message ud store text none).2.2 =
      MsgOutcome.savedQuiz
        ((store.filter (fun q => q.id = n)).length + 1) ∧
    2 ≤ (store.filter (fun q => q.id = n)).length + 1 := by
  have hc : ((store ++
        [(⟨n, pd.question, pd.options, sel, "Converted Poll"⟩ : Question)]).filter
      (fun q => q.id = n)).length =
      (store.filter (fun q => q.id = n)).length + 1 := by
    rw [List.filter_append]
    simp
  have hm : handle_message ud store text none =
      (⟨false, none⟩,
        store ++ [⟨n, pd.question, pd.options, sel, "Converted Poll"⟩],
        MsgOutcome.savedQuiz
          ((store.filter (fun q => q.id = n)).length + 1)) := by
    simp only [handle_message, hawait, if_true, hpd, hid, hsel, hc]
  rw [hm]
  refine ⟨rfl, rfl, ?_⟩
  obtain ⟨q, hq, hqn⟩ := hcollide
  have : q ∈ store.filter (fun q => q.id = n) :=
    List.mem_filter.mpr ⟨hq, by simp [hqn]⟩
  have := List.length_pos_of_mem this
  omega

/-- Witness for C9: id 5 already exists; the import appends another
record with id 5. -/
theorem poll_import_custom_id_witness :
    (handle_message ⟨true, some ⟨"P", ["x", "y"], some 1⟩⟩
        [⟨5, "q", ["a", "b"], 0, "c"⟩] "5" none).2.1 =
      [⟨5, "q", ["a", "b"], 0, "c"⟩] ++
        [⟨5, "P", ["x", "y"], 1, "Converted Poll"⟩] :=
  (poll_import_custom_id ⟨true, some ⟨"P", ["x", "y"], some 1⟩⟩
      [⟨5, "q", ["a", "b"], 0, "c"⟩] "5" ⟨"P", ["x", "y"], some 1⟩ 1 5
      rfl rfl rfl (by decide)
      ⟨⟨5, "q", ["a", "b"], 0, "c"⟩, by decide, rfl⟩).1

/-! ## C5: the answer-range invariant under the edit flows -/

/-- Counterexample to C5 as stated: `handle_edit_answer` persists the
payload's option index without a range check, so an index of 5 on a
two-option question breaks `0 ≤ answer < len(options)`. -/
theorem edit_answer_counterexample :
    handle_edit_answer [⟨7, "Q", ["A", "B"], 0, "c"⟩] "editanswer_7_5" =
      .saved [⟨7, "Q", ["A", "B"], 5, "c"⟩] ∧
    storeInv [⟨7, "Q", ["A", "B"], 0, "c"⟩] ∧
    ¬ storeInv [⟨7, "Q", ["A", "B"], 5, "c"⟩] := by
  decide

theorem setOptionsFirst_inv (store : Store) (qid : Int)
    (newOptions : List String) (q0 : Question)
    (hinv : storeInv store) (hlen : 2 ≤ newOptions.length)
    (hfind : get_question_by_id store qid = some q0) :
    storeInv (setOptionsFirst store qid newOptions q0.answer) := by
  induction store with
  | nil => intro q hq; simp [setOptionsFirst] at hq
  | cons q rest ih =>
    by_cases h : q.id = qid
    · have : get_question_by_id (q :: rest) qid = some q := by
        unfold get_question_by_id
        exact List.find?_cons_of_pos _ (by simp [h])
      rw [this] at hfind
      obtain rfl : q = q0 := by injection hfind
      unfold setOptionsFirst
      rw [if_pos h]
      intro x hx
      rcases List.mem_cons.mp hx with rfl | hx
      · obtain ⟨h0, _⟩ := hinv q (List.mem_cons_self _ _)
        by_cases hge : q.answer ≥ (newOptions.length : Int) <;>
          constructor <;> simp [answerInRange, hge] <;> omega
      · exact hinv x (List.mem_cons_of_mem _ hx)
    · have : get_question_by_id (q :: rest) qid =
          get_question_by_id rest qid := by
        unfold get_question_by_id
        exact List.find?_cons_of_neg _ (by simp [h])
      rw [this] at hfind
      unfold setOptionsFirst
      rw [if_neg h]
      intro x hx
      rcases List.mem_cons.mp hx with rfl | hx
      · exact hinv x (List.mem_cons_self _ _)
      · exact ih (fun y hy => hinv y (List.mem_cons_of_mem _ hy)) hfind x hx

theorem setAnswerFirst_inv (store : Store) (qid idx : Int)
    (hinv : storeInv store)
    (hrange : ∀ q ∈ store, q.id = qid →
      0 ≤ idx ∧ idx < (q.options.length : Int)) :
    storeInv (setAnswerFirst store qid idx) := by
  induction store with
  | nil => intro q hq; simp [setAnswerFirst] at hq
  | cons q rest ih =>
    unfold setAnswerFirst
    by_cases h : q.id = qid
    · rw [if_pos h]
      intro x hx
      rcases List.mem_cons.mp hx with rfl | hx
      · exact hrange q (List.mem_cons_self _ _) h
      · exact hinv x (List.mem_cons_of_mem _ hx)
    · rw [if_neg h]
      intro x hx
      rcases List.mem_cons.mp hx with rfl | hx
      · exact hinv x (List.mem_cons_self _ _)
      · exact ih (fun y hy => hinv y (List.mem_cons_of_mem _ hy))
          (fun y hy => hrange y (List.mem_cons_of_mem _ hy)) x hx

theorem getById_setOptionsFirst (store : Store) (qid : Int)
    (newOptions : List String) (oldAnswer : Int) :
    get_question_by_id (setOptionsFirst store qid newOptions oldAnswer) qid =
      (get_question_by_id store qid).map (fun q =>
        { q with
          options := newOptions,
          answer := if oldAnswer ≥ (newOptions.length : Int) then 0
            else q.answer }) := by
  induction store with
  | nil => rfl
  | cons q rest ih =>
    unfold setOptionsFirst get_question_by_id
    by_cases h : q.id = qid
    · rw [if_pos h, List.find?_cons_of_pos _ (by simp [h]),
        List.find?_cons_of_pos _ (by simp [h])]
      rfl
    · rw [if_neg h, List.find?_cons_of_neg _ (by simp [h]),
        List.find?_cons_of_neg _ (by simp [h])]
      exact ih

/-- C5 as amended: the options-edit handler preserves the answer-range
invariant for any input (resetting the first matching record's answer
index to 0 when its previous value overruns the new options); the
answer-edit handler persists the payload index without validation, so it
preserves the invariant exactly when that index lies within the matched
record's options range. -/
theorem question_invariant_amended :
    (∀ editing store text,
        storeInv store →
        storeInv (handle_edit_options editing store text).store) ∧
    (∀ store text qid q0,
        get_question_by_id store qid = some q0 →
        2 ≤ (parseOptionLines text).length →
        q0.answer ≥ ((parseOptionLines text).length : Int) →
        get_question_by_id (handle_edit_options (some qid) store text).store
            qid =
          some { q0 with options := parseOptionLines text, answer := 0 }) ∧
    (∀ store payload qid idx,
        3 ≤ (pySplit '_' payload).length →
        pyInt ((pySplit '_' payload).getD 1 "") = some qid →
        pyInt ((pySplit '_' payload).getD 2 "") = some idx →
        handle_edit_answer store payload =
          .saved (setAnswerFirst store qid idx)) ∧
    (∀ store qid idx,
        storeInv store →
        (∀ q ∈ store, q.id = qid →
          0 ≤ idx ∧ idx < (q.options.length : Int)) →
        storeInv (setAnswerFirst store qid idx)) := by
  refine ⟨?_, ?_, ?_, fun store qid idx h1 h2 =>
    setAnswerFirst_inv store qid idx h1 h2⟩
  · intro editing store text hinv
    by_cases hlen : (parseOptionLines text).length < 2
    · simpa only [handle_edit_options, if_pos hlen] using hinv
    · cases editing with
      | none => simpa only [handle_edit_options, if_neg hlen] using hinv
      | some qid =>
        cases hfind : get_question_by_id store qid with
        | none => simpa only [handle_edit_options, if_neg hlen, hfind] using hinv
        | some q =>
          have hpres :=
            setOptionsFirst_inv store qid (parseOptionLines text) q hinv
              (by omega) hfind
          simpa only [handle_edit_options, if_neg hlen, hfind] using hpres
  · intro store text qid q0 hfind hlen hge
    have hlt : ¬ (parseOptionLines text).length < 2 := by omega
    have hstore : (handle_edit_options (some qid) store text).store =
        setOptionsFirst store qid (parseOptionLines text) q0.answer := by
      simp only [handle_edit_options, if_neg hlt, hfind]
    rw [hstore, getById_setOptionsFirst, hfind]
    simp only [Option.map_some', Option.some.injEq]
    rw [if_pos hge]
  · intro store payload qid idx hlen h1 h2
    have hlt : ¬ (pySplit '_' payload).length < 3 := by omega
    simp only [handle_edit_answer, if_neg hlt, h1, h2]

/-- Witness for the amended C5 (the in-range answer edit keeps the
invariant). -/
theorem question_invariant_amended_witness :
    storeInv (setAnswerFirst [⟨7, "Q", ["A", "B"], 0, "c"⟩] 7 1) :=
  question_invariant_amended.2.2.2 [⟨7, "Q", ["A", "B"], 0, "c"⟩] 7 1
    (by decide) (by decide)

/-! ## C1: marathon delivery -/

theorem sched_getElem (l : List Question) : ∀ (now i : Nat),
    (schedule_next_question now l)[i]? =
      (l[i]?).map (fun q => (now + 15 * (i + 1), q)) := by
  induction l with
  | nil => intro now i; simp [schedule_next_question]
  | cons q rest ih =>
    intro now i
    cases i with
    | zero => simp [schedule_next_question]
    | succ i =>
      simp only [schedule_next_question, List.getElem?_cons_succ, ih]
      cases rest[i]? with
      | none => rfl
      | some x =>
        simp only [Option.map_some', Option.some.injEq, Prod.mk.injEq]
        exact ⟨by ring, by trivial⟩

theorem play_getElem (qs : List Question) (i : Nat) :
    (play_marathon qs)[i]? = (qs[i]?).map (fun q => (15 * i, q)) := by
  cases qs with
  | nil => simp [play_marathon]
  | cons q rest =>
    cases i with
    | zero => simp [play_marathon]
    | succ i =>
      simp only [play_marathon, List.getElem?_cons_succ, sched_getElem]
      cases rest[i]? with
      | none => rfl
      | some x =>
        simp only [Option.map_some', Option.some.injEq, Prod.mk.injEq]
        exact ⟨by ring, by trivial⟩

theorem sched_map_snd (l : List Question) : ∀ now : Nat,
    (schedule_next_question now l).map Prod.snd = l := by
  induction l with
  | nil => intro now; rfl
  | cons q rest ih =>
    intro now
    simp [schedule_next_question, ih]

/-- Claim C1: a marathon over `n ≥ 1` questions delivers exactly `n`
polls, in stored order, with the first at time 0 and each later one at
least 15 seconds after its predecessor. -/
theorem marathon_delivery (qs : List Question) (hqs : qs ≠ []) :
    (play_marathon qs).length = qs.length ∧
    (play_marathon qs).map Prod.snd = qs ∧
    (∀ q, qs[0]? = some q → (play_marathon qs)[0]? = some (0, q)) ∧
    (∀ i t₁ q₁ t₂ q₂, (play_marathon qs)[i]? = some (t₁, q₁) →
        (play_marathon qs)[i + 1]? = some (t₂, q₂) → t₁ + 15 ≤ t₂) := by
  have hsnd : (play_marathon qs).map Prod.snd = qs := by
    cases qs with
    | nil => rfl
    | cons q rest => simp [play_marathon, sched_map_snd]
  refine ⟨?_, hsnd, ?_, ?_⟩
  · calc (play_marathon qs).length
        = ((play_marathon qs).map Prod.snd).length := (List.length_map _ _).symm
      _ = qs.length := by rw [hsnd]
  · intro q h0
    rw [play_getElem, h0]
    rfl
  · intro i t₁ q₁ t₂ q₂ h1 h2
    rw [play_getElem] at h1 h2
    obtain ⟨x₁, _, hx₁⟩ := Option.map_eq_some'.mp h1
    obtain ⟨x₂, _, hx₂⟩ := Option.map_eq_some'.mp h2
    have ht₁ : t₁ = 15 * i := by
      have := congrArg Prod.fst hx₁; simpa using this.symm
    have ht₂ : t₂ = 15 * (i + 1) := by
      have := congrArg Prod.fst hx₂; simpa using this.symm
    omega

/-- Witness for C1 with three questions. -/
theorem marathon_delivery_witness :
    (play_marathon [⟨1, "a", ["x", "y"], 0, "g"⟩, ⟨1, "b", ["x", "y"], 1, "g"⟩,
        ⟨1, "c", ["x", "y"], 0, "g"⟩]).length =
      ([⟨1, "a", ["x", "y"], 0, "g"⟩, ⟨1, "b", ["x", "y"], 1, "g"⟩,
        ⟨1, "c", ["x", "y"], 0, "g"⟩] : List Question).length :=
  (marathon_delivery _ (by decide)).1

/-! ## C7: the extractor never infers the correct answer -/

theorem pyroTextExtract_answer {text : String} {d : Draft}
    (h : pyroTextExtract text = some d) : d.answer = 0 := by
  simp only [pyroTextExtract] at h
  repeat' split at h
  all_goals first
    | exact Option.noConfusion h
    | (injection h with h'; cases h'; rfl)

theorem strat_pyro_answer {url : String} {env : FetchEnv} {d : Draft}
    (h : strat_pyro url env = some d) : d.answer = 0 := by
  simp only [strat_pyro] at h
  split at h
  · split at h
    · injection h with h'; cases h'; rfl
    · exact pyroTextExtract_answer h
    · exact Option.noConfusion h
    · exact Option.noConfusion h
  · exact Option.noConfusion h

theorem strat_pollmarkup_answer {page : MainPage} {d : Draft}
    (h : strat_pollmarkup page = some d) : d.answer = 0 := by
  simp only [strat_pollmarkup] at h
  repeat' split at h
  all_goals first
    | exact Option.noConfusion h
    | (injection h with h'; cases h'; rfl)

theorem embedTextExtract_answer {text : String} {d : Draft}
    (h : embedTextExtract text = some d) : d.answer = 0 := by
  simp only [embedTextExtract] at h
  repeat' split at h
  all_goals first
    | exact Option.noConfusion h
    | (injection h with h'; cases h'; rfl)

theorem embedTitleExtract_answer {page : EmbedPage} {d : Draft}
    (h : embedTitleExtract page = some d) : d.answer = 0 := by
  simp only [embedTitleExtract] at h
  repeat' split at h
  all_goals first
    | exact Option.noConfusion h
    | (injection h with h'; cases h'; rfl)

theorem strat_embed_answer {page : EmbedPage} {d : Draft}
    (h : strat_embed page = some d) : d.answer = 0 := by
  unfold strat_embed at h
  split at h
  · split at h
    · rename_i d' heq
      injection h with h'
      exact h' ▸ embedTextExtract_answer heq
    · exact embedTitleExtract_answer h
  · exact embedTitleExtract_answer h

theorem strat_meta_answer {page : MainPage} {d : Draft}
    (h : strat_meta page = some d) : d.answer = 0 := by
  simp only [strat_meta] at h
  repeat' split at h
  all_goals first
    | exact Option.noConfusion h
    | (injection h with h'; cases h'; rfl)

theorem embedAttempt_answer {url : String} {env : FetchEnv} {d : Draft}
    (h : embedAttempt url env = some d) : d.answer = 0 := by
  unfold embedAttempt at h
  split at h
  · split at h
    · exact strat_embed_answer h
    · simp at h
  · simp at h

/-- Claim C7: whenever extraction succeeds, the returned draft's answer
index is 0 — the extractor never infers the correct answer. -/
theorem extractor_answer_zero (url : String) (env : FetchEnv) (d : Draft)
    (h : parse_telegram_quiz_url url env = some d) : d.answer = 0 := by
  unfold parse_telegram_quiz_url at h
  split at h
  · simp at h
  · cases hp : strat_pyro url env with
    | some d' =>
      simp only [hp] at h
      obtain rfl : d' = d := by injection h
      exact strat_pyro_answer hp
    | none =>
      simp only [hp] at h
      cases hm : env.mainFetch with
      | none => simp only [hm] at h; exact absurd h (by simp)
      | some page =>
        simp only [hm] at h
        cases hpm : strat_pollmarkup page with
        | some d' =>
          simp only [hpm] at h
          obtain rfl : d' = d := by injection h
          exact strat_pollmarkup_answer hpm
        | none =>
          simp only [hpm] at h
          cases he : embedAttempt url env with
          | some d' =>
            simp only [he] at h
            obtain rfl : d' = d := by injection h
            exact embedAttempt_answer he
          | none =>
            simp only [he] at h
            exact strat_meta_answer h

/-- Witness for C7 at an environment whose main page carries a poll. -/
theorem extractor_answer_zero_witness :
    (⟨"Q", ["A", "B"], 0⟩ : Draft).answer = 0 :=
  extractor_answer_zero "https://t.me/c/1"
    ⟨false, none, some ⟨some "Q", ["A", "B"], none, none⟩, none⟩
    ⟨"Q", ["A", "B"], 0⟩ (by decide)

/-! ## C2: the extractor chain -/

theorem chanHere_pre {l : List Char} (h : chanHere l = true) :
    listPre ['t', '.', 'm', 'e'] l = true := by
  unfold chanHere at h
  split at h
  · rfl
  · exact Bool.noConfusion h

theorem hasChanPattern_sub {l : List Char} (h : hasChanPattern l = true) :
    listSub ['t', '.', 'm', 'e'] l = true := by
  induction l with
  | nil => exact absurd h (by decide)
  | cons c rest ih =>
    unfold hasChanPattern at h
    unfold listSub
    rcases Bool.or_eq_true_iff.mp h with h1 | h2
    · rw [chanHere_pre h1]
      rfl
    · rw [ih h2]
      simp

theorem url_guard_of_chan {url : String}
    (h : hasChanPattern url.data = true) :
    (url = "" || !strContains url "t.me") = false := by
  have hne : ¬ url = "" := by
    intro he
    subst he
    exact absurd h (by decide)
  have hsub : strContains url "t.me" = true := by
    show listSub "t.me".data url.data = true
    have hd : "t.me".data = ['t', '.', 'm', 'e'] := rfl
    rw [hd]
    exact hasChanPattern_sub h
  rw [decide_eq_false hne, hsub]
  rfl

theorem parse_unfold_valid {url : String} (env : FetchEnv)
    (hguard : (url = "" || !strContains url "t.me") = false) :
    parse_telegram_quiz_url url env =
      match strat_pyro url env with
      | some d => some d
      | none =>
        match env.mainFetch with
        | none => none
        | some page =>
          match strat_pollmarkup page with
          | some d => some d
          | none =>
            match embedAttempt url env with
            | some d => some d
            | none => strat_meta page := by
  unfold parse_telegram_quiz_url
  exact if_neg (by simp [hguard])

/-- Counterexample to C2 as stated: a main page whose poll-question div
holds only whitespace and has two options.  No strategy yields a valid
(non-empty question, ≥ 2 options) draft, so the spec's chain reports
`none`, but the source returns the empty-question draft — the
poll-markup branch never re-checks the stripped question text. -/
theorem extractor_chain_counterexample :
    parse_telegram_quiz_url "https://t.me/c/1"
        ⟨false, none, some ⟨some " ", ["A", "B"], none, none⟩, none⟩ ≠
      chainSpec "https://t.me/c/1"
        ⟨false, none, some ⟨some " ", ["A", "B"], none, none⟩, none⟩ ∧
    parse_telegram_quiz_url "https://t.me/c/1"
        ⟨false, none, some ⟨some " ", ["A", "B"], none, none⟩, none⟩ =
      some ⟨"", ["A", "B"], 0⟩ ∧
    chainSpec "https://t.me/c/1"
        ⟨false, none, some ⟨some " ", ["A", "B"], none, none⟩, none⟩ =
      none := by
  decide

/-- C2 as amended: on a validated link the four strategies run in the
source's priority order with a short-circuit on the first *yielded*
result (the code accepts a yield without re-checking the spec's
validity conditions); when the earlier strategies yield nothing the
chain falls through to the metadata strategy, and the extractor returns
`none` rather than raising when everything fails — with the caveat that
a failed main-page fetch skips the three web strategies outright. -/
theorem extractor_chain_amended (url : String) (env : FetchEnv) :
    (∀ d, strat_pyro url env = some d →
        parse_telegram_quiz_url url env = some d) ∧
    (∀ page d, (url = "" || !strContains url "t.me") = false →
        strat_pyro url env = none → env.mainFetch = some page →
        strat_pollmarkup page = some d →
        parse_telegram_quiz_url url env = some d) ∧
    (∀ page d, (url = "" || !strContains url "t.me") = false →
        strat_pyro url env = none → env.mainFetch = some page →
        strat_pollmarkup page = none → embedAttempt url env = some d →
        parse_telegram_quiz_url url env = some d) ∧
    (∀ page, (url = "" || !strContains url "t.me") = false →
        strat_pyro url env = none → env.mainFetch = some page →
        strat_pollmarkup page = none → embedAttempt url env = none →
        parse_telegram_quiz_url url env = strat_meta page) ∧
    (strat_pyro url env = none → env.mainFetch = none →
        parse_telegram_quiz_url url env = none) := by
  refine ⟨?_, ?_, ?_, ?_, ?_⟩
  · intro d hd
    have hchan : hasChanPattern url.data = true := by
      by_cases hc : (env.hasCreds && hasChanPattern url.data) = true
      · exact ((Bool.and_eq_true _ _).mp hc).2
      · unfold strat_pyro at hd
        rw [if_neg hc] at hd
        exact Option.noConfusion hd
    rw [parse_unfold_valid env (url_guard_of_chan hchan)]
    simp only [hd]
  · intro page d hguard hp hm hpm
    rw [parse_unfold_valid env hguard]
    simp only [hp, hm, hpm]
  · intro page d hguard hp hm hpm he
    rw [parse_unfold_valid env hguard]
    simp only [hp, hm, hpm, he]
  · intro page hguard hp hm hpm he
    rw [parse_unfold_valid env hguard]
    simp only [hp, hm, hpm, he]
  · intro hp hm
    by_cases hg : (url = "" || !strContains url "t.me") = true
    · unfold parse_telegram_quiz_url
      rw [if_pos hg]
    · have hguard : (url = "" || !strContains url "t.me") = false :=
        Bool.eq_false_iff.mpr hg
      rw [parse_unfold_valid env hguard]
      simp only [hp, hm]

/-- Witness for the amended C2: with no credentials the poll-markup
strategy's yield is what the extractor returns. -/
theorem extractor_chain_amended_witness :
    parse_telegram_quiz_url "https://t.me/c/1"
        ⟨false, none, some ⟨some "Q", ["A", "B"], none, none⟩, none⟩ =
      some ⟨"Q", ["A", "B"], 0⟩ :=
  (extractor_chain_amended "https://t.me/c/1"
      ⟨false, none, some ⟨some "Q", ["A", "B"], none, none⟩, none⟩).2.1
    ⟨some "Q", ["A", "B"], none, none⟩ ⟨"Q", ["A", "B"], 0⟩
    (by decide) (by decide) rfl (by decide)

end QuizBot
